import Mathlib

/-!
Verification development for the coffee-leaf classifier training code
(classifier/classifiers-backup.py).  The numeric parts of the training
machinery are embedded as pure Lean functions over rationals:
metric evaluation, the imbalance-aware sampler, learning-rate index
computation, loss routing, epoch metric accumulation and the
best-checkpoint policy.
-/

namespace Classifiers

/-- Embeds sklearn.metrics accuracy_score on integer class vectors:
the fraction of positions where label and prediction agree
(callers always pass equal-length vectors). -/
def accuracy_score (y_true y_pred : List ℤ) : ℚ :=
  (((y_true.zip y_pred).filter (fun p => p.1 = p.2)).length : ℚ) / (y_true.length : ℚ)

/-- Embeds eval_metrics (lines 90-100).  The second label set is optional
(None when mix up is not in use); lam is taken as a plain rational since
the code only reads it on the path where callers supply it.  Metrics other
than acc fall through to None. -/
def eval_metrics (metric : String) (y_pred y_true : List ℤ)
    (y2_true : Option (List ℤ)) (lam : ℚ) : Option ℚ :=
  match y2_true with
  | none =>
      if metric = "acc" then some (accuracy_score y_true y_pred) else none
  | some y2 =>
      if metric = "acc" then
        some (lam * accuracy_score y_true y_pred + (1 - lam) * accuracy_score y2 y_pred)
      else none

/-- Number of examples falling in the (disease d, severity s) cell,
as summed by the joint branch of sampler (line 67). -/
def cell_count (dis sev : List ℕ) (d s : ℕ) : ℕ :=
  ((dis.zip sev).filter (fun p => p.1 = d ∧ p.2 = s)).length

/-- Pre-normalization weights of the joint branch of sampler
(lines 55-70): iterating all 25 (disease, severity) cells, each example in
a cell with count n gets 1 / ((n + 20) / total); an example whose labels
fall outside the 5x5 grid is never assigned and keeps the zero from the
np.zeros starting array. -/
def samples_weight_joint (dis sev : List ℕ) : List ℚ :=
  (dis.zip sev).map (fun p =>
    if p.1 < 5 ∧ p.2 < 5 then
      1 / (((cell_count dis sev p.1 p.2 : ℚ) + 20) / (dis.length : ℚ))
    else 0)

/-- Number of examples with class label t (the single-label branch,
line 80: len of the index set where targets == t). -/
def target_count (targets : List ℕ) (t : ℕ) : ℕ :=
  (targets.filter (fun x => x = t)).length

/-- Pre-normalization weights of the single-label branch of sampler
(lines 73-82): iterating the observed classes, each example of a class
with count n gets 1 / (n / total); every example's own class is observed,
so every position is assigned. -/
def samples_weight_single (targets : List ℕ) : List ℚ :=
  targets.map (fun t => 1 / ((target_count targets t : ℚ) / (targets.length : ℚ)))

/-- Final normalization (line 85): divide every weight by the sum. -/
def normalize_weights (ws : List ℚ) : List ℚ :=
  ws.map (fun w => w / ws.sum)

/-- The sampler weights for the joint (disease, severity) case. -/
def sampler_joint (dis sev : List ℕ) : List ℚ :=
  normalize_weights (samples_weight_joint dis sev)

/-- The sampler weights for the single-label case. -/
def sampler_single (targets : List ℕ) : List ℚ :=
  normalize_weights (samples_weight_single targets)

/-- The two loss criteria used by run_training (lines 337-338 and
644-645): index cross-entropy and KL divergence. -/
inductive Criterion
  | crossEntropy
  | klDiv
deriving DecidableEq

/-- Training criterion selection (line 337): cross-entropy unless the
augmentation mode is bc+, in which case KL divergence. -/
def criterion_train (data_augmentation : String) : Criterion :=
  if data_augmentation ≠ "bc+" then Criterion.crossEntropy else Criterion.klDiv

/-- Validation criterion (line 338): always cross-entropy. -/
def criterion_val : Criterion := Criterion.crossEntropy

/-- Modelled from the spec: mixup_criterion lives in utils.augmentation,
which is not part of this repository snapshot; the spec states that under
mixup the loss is the criterion evaluated against both label sides,
weighted lam and (1 - lam). -/
def mixup_criterion {α β : Type} (criterion : α → β → ℚ) (outputs : α)
    (labels_a labels_b : β) (lam : ℚ) : ℚ :=
  lam * criterion outputs labels_a + (1 - lam) * criterion outputs labels_b

/-- Per-head training loss of EntireLeafClf.train (lines 206-216): under
bc+ the criterion is applied to the log-softmax of the outputs against
the dense mixed targets; under mixup, mixup_criterion; otherwise the
criterion on the raw labels.  The log-softmax map and the label data are
abstract parameters. -/
def train_head_loss {α β : Type} (data_augmentation : String)
    (criterion : α → β → ℚ) (log_softmax : α → α)
    (outputs : α) (labels labels_a labels_b : β) (lam : ℚ) : ℚ :=
  if data_augmentation = "bc+" then criterion (log_softmax outputs) labels_a
  else if data_augmentation = "mixup" then
    mixup_criterion criterion outputs labels_a labels_b lam
  else criterion outputs labels

/-- Per-head validation loss of EntireLeafClf.validation (lines 286-287):
the criterion applied to the raw labels; the function has no
augmentation branch at all. -/
def val_head_loss {α β : Type} (criterion : α → β → ℚ)
    (outputs : α) (labels : β) : ℚ :=
  criterion outputs labels

/-- The scalar loss on which backward is invoked (lines 222-227),
selected by the output-mode switch. -/
def backprop_loss (output_std : String) (loss_dis loss_sev : ℚ) : ℚ :=
  if output_std = "multitask" then loss_dis + loss_sev
  else if output_std = "disease" then loss_dis
  else loss_sev

/-- Data of one entire-leaf batch as seen by the metric accumulation:
its size, the two head losses already computed by the criterion, and the
integer predictions and labels of both heads. -/
structure BatchData where
  n : ℕ
  loss_dis : ℚ
  loss_sev : ℚ
  pred_dis : List ℤ
  labels_dis : List ℤ
  pred_sev : List ℤ
  labels_sev : List ℤ

/-- The per-batch loss figure added to the running loss sum
(lines 237-242 and 291-296): the halved sum of both head losses in
multitask mode, else the selected head's loss. -/
def batch_loss_metric (output_std : String) (b : BatchData) : ℚ :=
  if output_std = "multitask" then (b.loss_dis + b.loss_sev) / 2
  else if output_std = "disease" then b.loss_dis
  else b.loss_sev

/-- The two-argument accuracy call of the metric accumulation
(lines 251, 260, 302, 308); on the acc metric eval_metrics always
returns a value. -/
def batch_acc (pred labels : List ℤ) : ℚ :=
  (eval_metrics "acc" pred labels none 0).getD 0

/-- The triple of epoch figures returned by EntireLeafClf.train and
EntireLeafClf.validation. -/
structure EpochMetrics where
  loss : ℚ
  dis_acc : ℚ
  sev_acc : ℚ

/-- Epoch metric accumulation shared by EntireLeafClf.train
(lines 235-268) and EntireLeafClf.validation (lines 289-316): running
sums of per-batch figures weighted by batch size; the accuracy sums are
accumulated only when an accelerator is available, because the
accumulation sits under the torch.cuda.is_available() guard
(lines 247, 256, 301, 307); at epoch end every sum is divided by the
dataset size and the accuracy figures are additionally scaled by 100. -/
def epoch_metrics (output_std : String) (cuda : Bool)
    (batches : List BatchData) (dataset_size : ℕ) : EpochMetrics :=
  { loss := (batches.map (fun b => batch_loss_metric output_std b * (b.n : ℚ))).sum
              / (dataset_size : ℚ)
    dis_acc := 100 * (batches.map (fun b =>
        if cuda then batch_acc b.pred_dis b.labels_dis * (b.n : ℚ) else 0)).sum
              / (dataset_size : ℚ)
    sev_acc := 100 * (batches.map (fun b =>
        if cuda then batch_acc b.pred_sev b.labels_sev * (b.n : ℚ) else 0)).sum
              / (dataset_size : ℚ) }

/-- Data of one lesion-spot batch: its size and the integer predictions
and labels of the single head. -/
structure LSBatch where
  n : ℕ
  pred : List ℤ
  labels : List ℤ

/-- The final accuracy figure of LesionSpotClf.train (lines 553-564):
correct accumulates the accuracy call times the batch size, but only
under the torch.cuda.is_available() guard (line 556); total accumulates
every batch size; the reported figure is 100 * correct / total. -/
def lesion_train_acc (cuda : Bool) (batches : List LSBatch) : ℚ :=
  100 * (batches.map (fun b =>
      if cuda then batch_acc b.pred b.labels * (b.n : ℚ) else 0)).sum
    / (batches.map (fun b => (b.n : ℚ))).sum

/-- The learning-rate table of adjust_learning_rate (line 104). -/
def lr_values : List ℚ := [1/100, 5/1000, 1/1000, 5/10000, 1/10000]

/-- Embeds round(epochs / 5) of line 105.  Python rounds the float
epochs/5 half to even, but an integer over 5 is never exactly half way
(and the float error is far below the 1/10 gap to the nearest half), so
the result is the integer nearest to epochs / 5, here written with
natural division. -/
def lr_step (epochs : ℕ) : ℕ := (2 * epochs + 5) / 10

/-- The index computed at line 107:
min(floor(epoch / step), len(lr_values)).  For epochs of at least 3 the
step is positive, and floor of the float quotient of two such integers
equals natural division. -/
def lr_index (epoch epochs : ℕ) : ℕ :=
  min (epoch / lr_step epochs) lr_values.length

/-- One pass of the best-checkpoint policy of run_training
(lines 361-391 and 666-695), collecting the epoch indices at which the
model file is written: starting from the current best loss and epoch
index, an epoch writes exactly when its validation loss is strictly
below the best and the epoch index is at least 5, and a write updates
the best loss. -/
def ckpt_writes_from : ℚ → ℕ → List ℚ → List ℕ
  | _, _, [] => []
  | best, e, l :: rest =>
      if l < best ∧ 5 ≤ e then e :: ckpt_writes_from l (e + 1) rest
      else ckpt_writes_from best (e + 1) rest

/-- The checkpoint-write epochs of a whole run: best_loss starts at the
sentinel 1000.0 (lines 361 and 666) and epochs count from 0. -/
def checkpoint_writes (losses : List ℚ) : List ℕ :=
  ckpt_writes_from 1000 0 losses

/-- The best loss after processing a list of epochs, starting from a
given best value and epoch index. -/
def best_aux : ℚ → ℕ → List ℚ → ℚ
  | best, _, [] => best
  | best, e, l :: rest =>
      if l < best ∧ 5 ≤ e then best_aux l (e + 1) rest
      else best_aux best (e + 1) rest

/-- The value of best_loss just before epoch e of a run. -/
def best_before (losses : List ℚ) (e : ℕ) : ℚ :=
  best_aux 1000 0 (losses.take e)

/-- A concrete entire-leaf batch of size 2 used by witnesses. -/
def demo_batch_1 : BatchData :=
  ⟨2, 1, 3, [0, 1], [0, 1], [0, 0], [0, 1]⟩

/-- A second concrete entire-leaf batch of size 2 used by witnesses. -/
def demo_batch_2 : BatchData :=
  ⟨2, 2, 4, [1, 1], [1, 0], [2, 2], [2, 2]⟩

/-- A concrete entire-leaf batch whose predictions all agree with the
labels, used to exhibit the accelerator dependence of the accuracy
figures. -/
def perfect_batch : BatchData :=
  ⟨2, 0, 0, [0, 1], [0, 1], [0, 1], [0, 1]⟩

/-- A concrete lesion-spot batch whose predictions all agree with the
labels. -/
def perfect_ls_batch : LSBatch :=
  ⟨2, [0, 1], [0, 1]⟩

/-! ## Theorems -/

/-- C1: for integer prediction and label vectors of one length and any lam
in the unit interval, the mixed-label accuracy returned by eval_metrics
with a second label set equals lam times the plain accuracy against the
first label set plus (1 - lam) times the plain accuracy against the
second, plain accuracy being the fraction of agreeing positions. -/
theorem eval_metrics_mixup_linear (pred a b : List ℤ) (lam : ℚ)
    (ha : a.length = pred.length) (hb : b.length = pred.length)
    (h0 : 0 ≤ lam) (h1 : lam ≤ 1) :
    eval_metrics "acc" pred a (some b) lam =
      some (lam * accuracy_score a pred + (1 - lam) * accuracy_score b pred) := by
  simp [eval_metrics]

/-- Witness for C1 at a concrete input. -/
theorem eval_metrics_mixup_linear_witness :
    eval_metrics "acc" [0, 1, 1] [0, 1, 0] (some [1, 1, 1]) (1/4) =
      some ((1/4) * accuracy_score [0, 1, 0] [0, 1, 1]
            + (1 - 1/4) * accuracy_score [1, 1, 1] [0, 1, 1]) :=
  eval_metrics_mixup_linear [0, 1, 1] [0, 1, 0] [1, 1, 1] (1/4)
    (by decide) (by decide) (by norm_num) (by norm_num)

/-- C2: pre-normalization weights follow the stated formulas (joint:
1 / ((n + 20) / total) for an in-grid example whose cell has count n;
single: 1 / (n / total)), the sampler output is those weights divided by
their sum, and on 100 single-label samples split 90/10 across two classes
each minority-class weight is 9 times each majority-class weight. -/
theorem sampler_weight_formula
    (dis sev : List ℕ) (hlen : dis.length = sev.length)
    (i : ℕ) (hi : i < dis.length)
    (hd : dis.getD i 0 < 5) (hs : sev.getD i 0 < 5)
    (targets : List ℕ) (j : ℕ) (hj : j < targets.length) :
    (samples_weight_joint dis sev).getD i 0
      = 1 / (((cell_count dis sev (dis.getD i 0) (sev.getD i 0) : ℚ) + 20)
              / (dis.length : ℚ))
    ∧ (samples_weight_single targets).getD j 0
      = 1 / ((target_count targets (targets.getD j 0) : ℚ) / (targets.length : ℚ))
    ∧ sampler_single targets
      = (samples_weight_single targets).map
          (fun w => w / (samples_weight_single targets).sum)
    ∧ (sampler_single (List.replicate 90 0 ++ List.replicate 10 1)).getD 90 0
      = 9 * (sampler_single (List.replicate 90 0 ++ List.replicate 10 1)).getD 0 0 := by
  have hi' : i < sev.length := hlen ▸ hi
  refine ⟨?_, ?_, rfl, ?_⟩
  · have hd' : dis[i] < 5 := by rwa [List.getD_eq_getElem _ _ hi] at hd
    have hs' : sev[i] < 5 := by rwa [List.getD_eq_getElem _ _ hi'] at hs
    have hz : i < (dis.zip sev).length := by
      rw [List.length_zip]; omega
    have hlw : i < (samples_weight_joint dis sev).length := by
      simpa [samples_weight_joint] using hz
    rw [List.getD_eq_getElem _ _ hlw]
    simp only [samples_weight_joint, List.getElem_map, List.getElem_zip]
    rw [if_pos ⟨hd', hs'⟩, List.getD_eq_getElem _ _ hi, List.getD_eq_getElem _ _ hi']
  · have hlw : j < (samples_weight_single targets).length := by
      simpa [samples_weight_single] using hj
    rw [List.getD_eq_getElem _ _ hlw]
    simp only [samples_weight_single, List.getElem_map]
    rw [List.getD_eq_getElem _ _ hj]
  · have h0 : target_count (List.replicate 90 0 ++ List.replicate 10 1) 0 = 90 := by
      simp [target_count, List.filter_append, List.filter_replicate]
    have h1 : target_count (List.replicate 90 0 ++ List.replicate 10 1) 1 = 10 := by
      simp [target_count, List.filter_append, List.filter_replicate]
    have hws : samples_weight_single (List.replicate 90 0 ++ List.replicate 10 1)
        = List.replicate 90 (10/9 : ℚ) ++ List.replicate 10 (10 : ℚ) := by
      simp only [samples_weight_single, List.map_append, List.map_replicate,
        List.length_append, List.length_replicate]
      rw [h0, h1]
      norm_num
    have hsum : (samples_weight_single (List.replicate 90 0 ++ List.replicate 10 1)).sum
        = (200 : ℚ) := by
      rw [hws]
      simp [List.sum_append, List.sum_replicate]
      norm_num
    have hnorm : sampler_single (List.replicate 90 0 ++ List.replicate 10 1)
        = List.replicate 90 (1/180 : ℚ) ++ List.replicate 10 (1/20 : ℚ) := by
      unfold sampler_single normalize_weights
      rw [hsum, hws]
      simp only [List.map_append, List.map_replicate]
      norm_num
    rw [hnorm, List.getD_append_right _ _ _ _ (by simp), List.getD_append _ _ _ _ (by simp)]
    simp
    norm_num

/-- Witness for C2 at concrete inputs. -/
theorem sampler_weight_formula_witness :
    (samples_weight_joint [1, 2] [0, 3]).getD 0 0
      = 1 / (((cell_count [1, 2] [0, 3] (List.getD [1, 2] 0 0) (List.getD [0, 3] 0 0) : ℚ) + 20)
              / ((List.length [1, 2] : ℕ) : ℚ))
    ∧ (samples_weight_single [0, 0, 1]).getD 2 0
      = 1 / ((target_count [0, 0, 1] (List.getD [0, 0, 1] 2 0) : ℚ)
              / ((List.length [0, 0, 1] : ℕ) : ℚ))
    ∧ sampler_single [0, 0, 1]
      = (samples_weight_single [0, 0, 1]).map
          (fun w => w / (samples_weight_single [0, 0, 1]).sum)
    ∧ (sampler_single (List.replicate 90 0 ++ List.replicate 10 1)).getD 90 0
      = 9 * (sampler_single (List.replicate 90 0 ++ List.replicate 10 1)).getD 0 0 :=
  sampler_weight_formula [1, 2] [0, 3] (by decide) 0 (by decide) (by decide) (by decide)
    [0, 0, 1] 2 (by decide)

lemma sum_map_div (ws : List ℚ) (s : ℚ) :
    (ws.map (fun w => w / s)).sum = ws.sum / s := by
  induction ws with
  | nil => simp
  | cons a t ih => simp [ih, add_div]

lemma samples_weight_single_pos (targets : List ℕ)
    (ht : targets ≠ []) :
    ∀ w ∈ samples_weight_single targets, 0 < w := by
  intro w hw
  obtain ⟨t, htmem, rfl⟩ := List.mem_map.mp hw
  have hlen : (0 : ℚ) < (targets.length : ℚ) := by
    have := List.length_pos.mpr ht
    exact_mod_cast this
  have hcnt : (0 : ℚ) < (target_count targets t : ℚ) := by
    have : t ∈ targets.filter (fun x => x = t) :=
      List.mem_filter.mpr ⟨htmem, by simp⟩
    have : 0 < target_count targets t :=
      List.length_pos.mpr (List.ne_nil_of_mem this)
    exact_mod_cast this
  exact div_pos one_pos (div_pos hcnt hlen)

lemma samples_weight_joint_pos (dis sev : List ℕ)
    (hd : dis ≠ []) (hrange : ∀ p ∈ dis.zip sev, p.1 < 5 ∧ p.2 < 5) :
    ∀ w ∈ samples_weight_joint dis sev, 0 < w := by
  intro w hw
  obtain ⟨p, hpmem, rfl⟩ := List.mem_map.mp hw
  have hlen : (0 : ℚ) < (dis.length : ℚ) := by
    have := List.length_pos.mpr hd
    exact_mod_cast this
  rw [if_pos (hrange p hpmem)]
  have hc : (0 : ℚ) < (cell_count dis sev p.1 p.2 : ℚ) + 20 := by
    have : (0 : ℚ) ≤ (cell_count dis sev p.1 p.2 : ℚ) := by positivity
    linarith
  exact div_pos one_pos (div_pos hc hlen)

lemma normalize_weights_props (ws : List ℚ) (hne : ws ≠ [])
    (hpos : ∀ w ∈ ws, 0 < w) :
    (∀ w ∈ normalize_weights ws, 0 < w) ∧ (normalize_weights ws).sum = 1 := by
  have hsum : 0 < ws.sum := List.sum_pos ws hpos hne
  constructor
  · intro w hw
    obtain ⟨x, hx, rfl⟩ := List.mem_map.mp hw
    exact div_pos (hpos x hx) hsum
  · unfold normalize_weights
    rw [sum_map_div]
    exact div_self (ne_of_gt hsum)

/-- C3: on a non-empty dataset whose labels lie in the 5x5 grid, the
sampler weight vector has only non-negative entries, the entries sum
to 1, and every example (whose own class necessarily appears at least
once) receives a strictly positive weight; this holds in both the
single-label and the joint (disease, severity) case. -/
theorem sampler_weights_invariant
    (targets : List ℕ) (ht : targets ≠ [])
    (dis sev : List ℕ) (hd : dis ≠ []) (hlen : dis.length = sev.length)
    (hrange : ∀ p ∈ dis.zip sev, p.1 < 5 ∧ p.2 < 5) :
    (∀ w ∈ sampler_single targets, 0 ≤ w)
    ∧ (sampler_single targets).sum = 1
    ∧ (∀ w ∈ sampler_single targets, 0 < w)
    ∧ (∀ w ∈ sampler_joint dis sev, 0 ≤ w)
    ∧ (sampler_joint dis sev).sum = 1
    ∧ (∀ w ∈ sampler_joint dis sev, 0 < w) := by
  have hsne : samples_weight_single targets ≠ [] := by
    simp [samples_weight_single, ht]
  have hjne : samples_weight_joint dis sev ≠ [] := by
    have : dis.zip sev ≠ [] := by
      have h1 : 0 < dis.length := List.length_pos.mpr hd
      have : 0 < (dis.zip sev).length := by rw [List.length_zip]; omega
      exact List.ne_nil_of_length_pos this
    simp [samples_weight_joint, this]
  obtain ⟨hs_pos, hs_sum⟩ :=
    normalize_weights_props _ hsne (samples_weight_single_pos targets ht)
  obtain ⟨hj_pos, hj_sum⟩ :=
    normalize_weights_props _ hjne (samples_weight_joint_pos dis sev hd hrange)
  exact ⟨fun w hw => le_of_lt (hs_pos w hw), hs_sum, hs_pos,
    fun w hw => le_of_lt (hj_pos w hw), hj_sum, hj_pos⟩

/-- Witness for C3 at concrete inputs. -/
theorem sampler_weights_invariant_witness :
    (∀ w ∈ sampler_single [0, 0, 1], 0 ≤ w)
    ∧ (sampler_single [0, 0, 1]).sum = 1
    ∧ (∀ w ∈ sampler_single [0, 0, 1], 0 < w)
    ∧ (∀ w ∈ sampler_joint [0, 1] [2, 3], 0 ≤ w)
    ∧ (sampler_joint [0, 1] [2, 3]).sum = 1
    ∧ (∀ w ∈ sampler_joint [0, 1] [2, 3], 0 < w) :=
  sampler_weights_invariant [0, 0, 1] (by decide) [0, 1] [2, 3]
    (by decide) (by decide) (by decide)

/-- C4: the scalar loss handed to backpropagation is loss_dis + loss_sev
in multitask mode, only loss_dis in disease mode and only loss_sev in
severity mode; in each single-head mode the backpropagated value does not
depend on the non-selected head's loss, so that loss contributes no
gradients to the parameter update. -/
theorem backprop_loss_routing (loss_dis loss_sev : ℚ) :
    backprop_loss "multitask" loss_dis loss_sev = loss_dis + loss_sev
    ∧ backprop_loss "disease" loss_dis loss_sev = loss_dis
    ∧ backprop_loss "severity" loss_dis loss_sev = loss_sev
    ∧ (∀ other_sev : ℚ,
        backprop_loss "disease" loss_dis other_sev
          = backprop_loss "disease" loss_dis loss_sev)
    ∧ (∀ other_dis : ℚ,
        backprop_loss "severity" other_dis loss_sev
          = backprop_loss "severity" loss_dis loss_sev) := by
  refine ⟨by simp [backprop_loss], by simp [backprop_loss], by simp [backprop_loss],
    fun _ => by simp [backprop_loss], fun _ => by simp [backprop_loss]⟩

/-- C5: the training criterion is KL divergence exactly when the
augmentation mode is bc+ and cross-entropy otherwise; under mixup the
per-head step loss is the linear combination of the criterion against
both label sides weighted lam and (1 - lam); validation always uses
cross-entropy on the unmodified labels with no augmentation applied. -/
theorem criterion_selection {α β : Type}
    (crit : α → β → ℚ) (log_softmax : α → α) (outputs : α)
    (labels labels_a labels_b : β) (lam : ℚ) :
    (∀ aug : String, criterion_train aug = Criterion.klDiv ↔ aug = "bc+")
    ∧ (∀ aug : String, criterion_train aug = Criterion.crossEntropy ↔ aug ≠ "bc+")
    ∧ train_head_loss "mixup" crit log_softmax outputs labels labels_a labels_b lam
        = lam * crit outputs labels_a + (1 - lam) * crit outputs labels_b
    ∧ criterion_val = Criterion.crossEntropy
    ∧ val_head_loss crit outputs labels = crit outputs labels := by
  refine ⟨?_, ?_, ?_, rfl, rfl⟩
  · intro aug
    unfold criterion_train
    split_ifs with h <;> simp_all
  · intro aug
    unfold criterion_train
    split_ifs with h <;> simp_all
  · simp [train_head_loss, mixup_criterion]

lemma sum_map_const_size (f : BatchData → ℚ) (k : ℕ) (batches : List BatchData)
    (hk : ∀ b ∈ batches, b.n = k) :
    (batches.map (fun b => f b * (b.n : ℚ))).sum = (k : ℚ) * (batches.map f).sum := by
  induction batches with
  | nil => simp
  | cons b t ih =>
      have hb : b.n = k := hk b (List.mem_cons_self b t)
      have ht : ∀ x ∈ t, x.n = k := fun x hx => hk x (List.mem_cons_of_mem b hx)
      simp only [List.map_cons, List.sum_cons, ih ht, hb]
      ring

/-- C6: the reported epoch figures are the per-batch figures weighted by
batch size and divided by the dataset size, and when every batch has the
same size k and the dataset size is k times the number of batches they
reduce to the unweighted mean of the per-batch figures; accuracy is
scaled by 100 while loss is the plain mean. -/
theorem epoch_metrics_size_weighted (output_std : String)
    (batches : List BatchData) (dataset_size k : ℕ)
    (hk : ∀ b ∈ batches, b.n = k) (hk0 : 0 < k)
    (hN : dataset_size = k * batches.length) :
    epoch_metrics output_std true batches dataset_size =
      { loss := (batches.map (fun b => batch_loss_metric output_std b)).sum
                  / (batches.length : ℚ)
        dis_acc := 100 * (batches.map (fun b => batch_acc b.pred_dis b.labels_dis)).sum
                  / (batches.length : ℚ)
        sev_acc := 100 * (batches.map (fun b => batch_acc b.pred_sev b.labels_sev)).sum
                  / (batches.length : ℚ) }
    ∧ ∀ m : ℕ, epoch_metrics output_std true batches m =
      { loss := (batches.map (fun b => batch_loss_metric output_std b * (b.n : ℚ))).sum
                  / (m : ℚ)
        dis_acc := 100 * (batches.map (fun b =>
                    batch_acc b.pred_dis b.labels_dis * (b.n : ℚ))).sum / (m : ℚ)
        sev_acc := 100 * (batches.map (fun b =>
                    batch_acc b.pred_sev b.labels_sev * (b.n : ℚ))).sum / (m : ℚ) } := by
  have hk' : (k : ℚ) ≠ 0 := by
    exact_mod_cast Nat.pos_iff_ne_zero.mp hk0
  constructor
  · simp only [epoch_metrics, if_true, EpochMetrics.mk.injEq]
    refine ⟨?_, ?_, ?_⟩
    · rw [sum_map_const_size _ k batches hk, hN]
      push_cast
      rw [mul_div_mul_left _ _ hk']
    · rw [sum_map_const_size _ k batches hk, hN]
      push_cast
      rw [mul_div_assoc, mul_div_mul_left _ _ hk', ← mul_div_assoc]
    · rw [sum_map_const_size _ k batches hk, hN]
      push_cast
      rw [mul_div_assoc, mul_div_mul_left _ _ hk', ← mul_div_assoc]
  · intro m
    simp [epoch_metrics]

/-- Witness for C6 at two concrete batches of size 2 each. -/
theorem epoch_metrics_size_weighted_witness :
    (epoch_metrics "multitask" true [demo_batch_1, demo_batch_2] 4 =
      { loss := (List.map (fun b => batch_loss_metric "multitask" b)
                  [demo_batch_1, demo_batch_2]).sum
                  / ((List.length [demo_batch_1, demo_batch_2] : ℕ) : ℚ)
        dis_acc := 100 * (List.map (fun b => batch_acc b.pred_dis b.labels_dis)
                  [demo_batch_1, demo_batch_2]).sum
                  / ((List.length [demo_batch_1, demo_batch_2] : ℕ) : ℚ)
        sev_acc := 100 * (List.map (fun b => batch_acc b.pred_sev b.labels_sev)
                  [demo_batch_1, demo_batch_2]).sum
                  / ((List.length [demo_batch_1, demo_batch_2] : ℕ) : ℚ) })
    ∧ ∀ m : ℕ, epoch_metrics "multitask" true [demo_batch_1, demo_batch_2] m =
      { loss := (List.map (fun b => batch_loss_metric "multitask" b * (b.n : ℚ))
                  [demo_batch_1, demo_batch_2]).sum / (m : ℚ)
        dis_acc := 100 * (List.map (fun b => batch_acc b.pred_dis b.labels_dis * (b.n : ℚ))
                  [demo_batch_1, demo_batch_2]).sum / (m : ℚ)
        sev_acc := 100 * (List.map (fun b => batch_acc b.pred_sev b.labels_sev * (b.n : ℚ))
                  [demo_batch_1, demo_batch_2]).sum / (m : ℚ) } :=
  epoch_metrics_size_weighted "multitask" [demo_batch_1, demo_batch_2] 4 2
    (by intro b hb; fin_cases hb <;> rfl) (by norm_num) (by rfl)

lemma mem_ckpt_writes (xs : List ℚ) :
    ∀ (best : ℚ) (e0 x : ℕ), x ∈ ckpt_writes_from best e0 xs → 5 ≤ x ∧ e0 ≤ x := by
  induction xs with
  | nil => intro best e0 x hx; simp [ckpt_writes_from] at hx
  | cons l rest ih =>
      intro best e0 x hx
      simp only [ckpt_writes_from] at hx
      split_ifs at hx with hc
      · rcases List.mem_cons.mp hx with rfl | hx'
        · exact ⟨hc.2, le_refl _⟩
        · have := ih l (e0 + 1) x hx'
          exact ⟨this.1, by omega⟩
      · have := ih best (e0 + 1) x hx
        exact ⟨this.1, by omega⟩

lemma ckpt_writes_skip (k : ℕ) :
    ∀ (xs : List ℚ) (best : ℚ) (e0 : ℕ), e0 + k ≤ 5 →
      ckpt_writes_from best e0 xs = ckpt_writes_from best (e0 + k) (xs.drop k) := by
  induction k with
  | zero => intro xs best e0 h; simp
  | succ k ih =>
      intro xs best e0 h
      cases xs with
      | nil => simp [ckpt_writes_from]
      | cons l rest =>
          have hne : ¬ (l < best ∧ 5 ≤ e0) := by
            rintro ⟨-, h5⟩; omega
          simp only [ckpt_writes_from, if_neg hne, List.drop_succ_cons]
          rw [ih rest best (e0 + 1) (by omega)]
          congr 1
          omega

lemma chain_last_lt (xs : List ℚ) :
    ∀ (a y : ℚ), List.Chain' (fun p q => p > q) (a :: xs) →
      xs.getLast? = some y → y < a := by
  induction xs with
  | nil => intro a y _ hy; simp at hy
  | cons b t ih =>
      intro a y hch hy
      have hab : a > b ∧ List.Chain' (fun p q => p > q) (b :: t) :=
        List.chain'_cons.mp hch
      cases t with
      | nil =>
          simp at hy
          subst hy
          exact hab.1
      | cons c u =>
          rw [List.getLast?_cons_cons] at hy
          exact lt_trans (ih b y hab.2 hy) hab.1

lemma ckpt_last_write (xs : List ℚ) :
    ∀ (best : ℚ) (e0 : ℕ) (y : ℚ), 5 ≤ e0 →
      List.Chain' (fun p q => p > q) xs →
      xs.getLast? = some y → y < best →
      (ckpt_writes_from best e0 xs).getLast? = some (e0 + xs.length - 1) := by
  induction xs with
  | nil => intro best e0 y _ _ hy _; simp at hy
  | cons l rest ih =>
      intro best e0 y h5 hch hy hyb
      cases rest with
      | nil =>
          simp at hy
          subst hy
          simp only [ckpt_writes_from, if_pos (And.intro hyb h5)]
          simp [ckpt_writes_from]
      | cons r u =>
          rw [List.getLast?_cons_cons] at hy
          have hch2 : List.Chain' (fun p q => p > q) (r :: u) :=
            (List.chain'_cons.mp hch).2
          have hyl : y < l := chain_last_lt (r :: u) l y hch hy
          by_cases hlb : l < best
          · rw [ckpt_writes_from, if_pos (And.intro hlb h5)]
            have hrec := ih l (e0 + 1) y (by omega) hch2 hy hyl
            cases hwsc : ckpt_writes_from l (e0 + 1) (r :: u) with
            | nil => rw [hwsc] at hrec; simp at hrec
            | cons w vs =>
                rw [hwsc] at hrec
                rw [List.getLast?_cons_cons, hrec]
                simp only [List.length_cons]
                congr 1
                omega
          · have hne : ¬ (l < best ∧ 5 ≤ e0) := fun h => hlb h.1
            rw [ckpt_writes_from, if_neg hne]
            have hrec := ih best (e0 + 1) y (by omega) hch2 hy hyb
            rw [hrec]
            simp only [List.length_cons]
            congr 1
            omega

lemma mem_ckpt_writes_iff (xs : List ℚ) :
    ∀ (best : ℚ) (e0 x : ℕ),
      x ∈ ckpt_writes_from best e0 xs ↔
        ∃ k, k < xs.length ∧ x = e0 + k ∧ 5 ≤ x ∧
          xs.getD k 0 < best_aux best e0 (xs.take k) := by
  induction xs with
  | nil => intro best e0 x; simp [ckpt_writes_from]
  | cons l rest ih =>
      intro best e0 x
      by_cases hc : l < best ∧ 5 ≤ e0
      · simp only [ckpt_writes_from, if_pos hc, List.mem_cons]
        constructor
        · rintro (rfl | hx')
          · exact ⟨0, by simp, by omega, hc.2, by simpa [best_aux] using hc.1⟩
          · obtain ⟨k, hk, hxk, h5, hlt⟩ := (ih l (e0 + 1) x).mp hx'
            refine ⟨k + 1, by simp only [List.length_cons]; omega, by omega, h5, ?_⟩
            simpa [best_aux, if_pos hc] using hlt
        · rintro ⟨k, hk, hxk, h5, hlt⟩
          cases k with
          | zero => left; omega
          | succ k =>
              right
              apply (ih l (e0 + 1) x).mpr
              refine ⟨k, by simp only [List.length_cons] at hk; omega, by omega, h5, ?_⟩
              simpa [best_aux, if_pos hc] using hlt
      · simp only [ckpt_writes_from, if_neg hc]
        rw [ih best (e0 + 1) x]
        constructor
        · rintro ⟨k, hk, hxk, h5, hlt⟩
          refine ⟨k + 1, by simp only [List.length_cons]; omega, by omega, h5, ?_⟩
          simpa [best_aux, if_neg hc] using hlt
        · rintro ⟨k, hk, hxk, h5, hlt⟩
          cases k with
          | zero =>
              exfalso
              apply hc
              constructor
              · simpa [best_aux] using hlt
              · omega
          | succ k =>
              refine ⟨k, by simp only [List.length_cons] at hk; omega, by omega, h5, ?_⟩
              simpa [best_aux, if_neg hc] using hlt

lemma best_aux_low (xs : List ℚ) :
    ∀ (best : ℚ) (e0 : ℕ), e0 + xs.length ≤ 5 → best_aux best e0 xs = best := by
  induction xs with
  | nil => intro best e0 _; rfl
  | cons l rest ih =>
      intro best e0 h
      simp only [List.length_cons] at h
      have hne : ¬ (l < best ∧ 5 ≤ e0) := by
        rintro ⟨-, h5⟩; omega
      simp only [best_aux, if_neg hne]
      exact ih best (e0 + 1) (by omega)

lemma best_aux_append (xs : List ℚ) :
    ∀ (ys : List ℚ) (best : ℚ) (e0 : ℕ),
      best_aux best e0 (xs ++ ys)
        = best_aux (best_aux best e0 xs) (e0 + xs.length) ys := by
  induction xs with
  | nil => intro ys best e0; simp [best_aux]
  | cons l rest ih =>
      intro ys best e0
      by_cases hc : l < best ∧ 5 ≤ e0
      · rw [List.cons_append, best_aux, if_pos hc, ih]
        conv_rhs => rw [best_aux, if_pos hc]
        simp only [List.length_cons]
        have harith : e0 + 1 + rest.length = e0 + (rest.length + 1) := by omega
        rw [harith]
      · rw [List.cons_append, best_aux, if_neg hc, ih]
        conv_rhs => rw [best_aux, if_neg hc]
        simp only [List.length_cons]
        have harith : e0 + 1 + rest.length = e0 + (rest.length + 1) := by omega
        rw [harith]

lemma best_before_succ (losses : List ℚ) (e : ℕ) (he : e < losses.length) :
    best_before losses (e + 1) =
      if losses.getD e 0 < best_before losses e ∧ 5 ≤ e then losses.getD e 0
      else best_before losses e := by
  unfold best_before
  rw [List.take_succ, List.getElem?_eq_getElem he]
  simp only [Option.toList_some]
  rw [best_aux_append]
  have hlen : (losses.take e).length = e := by
    rw [List.length_take]; omega
  rw [hlen, List.getD_eq_getElem _ _ he]
  simp [best_aux, Nat.zero_add]


theorem checkpoint_warmup (losses : List ℚ) (h10 : losses.length = 10)
    (hdec : List.Chain' (fun p q => p > q) losses)
    (hlast : losses.getD 9 0 < 1000) :
    (∀ e ∈ checkpoint_writes losses, 5 ≤ e)
    ∧ (checkpoint_writes losses).getLast? = some 9 := by
  constructor
  · intro e he
    exact (mem_ckpt_writes losses 1000 0 e he).1
  · have hskip : checkpoint_writes losses = ckpt_writes_from 1000 5 (losses.drop 5) := by
      unfold checkpoint_writes
      have := ckpt_writes_skip 5 losses 1000 0 (by omega)
      simpa using this
    have h9 : 9 < losses.length := by omega
    have hlastlosses : losses.getLast? = some (losses.getD 9 0) := by
      rw [List.getLast?_eq_getElem?, h10]
      norm_num
      rw [List.getElem?_eq_getElem h9]
      rfl
    have hlastdrop : (losses.drop 5).getLast? = some (losses.getD 9 0) := by
      rw [List.getLast?_drop, if_neg (by omega : ¬ losses.length ≤ 5)]
      exact hlastlosses
    have hmain := ckpt_last_write (losses.drop 5) 1000 5 (losses.getD 9 0)
      (le_refl 5) (hdec.drop 5) hlastdrop hlast
    have hdlen : (losses.drop 5).length = 5 := by simp [h10]
    rw [hskip, hmain, hdlen]

theorem checkpoint_warmup_witness :
    (∀ e ∈ checkpoint_writes [10, 9, 8, 7, 6, 5, 4, 3, 2, 1], 5 ≤ e)
    ∧ (checkpoint_writes [10, 9, 8, 7, 6, 5, 4, 3, 2, 1]).getLast? = some 9 :=
  checkpoint_warmup [10, 9, 8, 7, 6, 5, 4, 3, 2, 1]
    (by decide) (by norm_num) (by norm_num)

theorem checkpoint_warmup_counterexample :
    ([1010, 1009, 1008, 1007, 1006, 1005, 1004, 1003, 1002, 1001] : List ℚ).length = 10
    ∧ List.Chain' (fun p q => p > q)
        ([1010, 1009, 1008, 1007, 1006, 1005, 1004, 1003, 1002, 1001] : List ℚ)
    ∧ checkpoint_writes [1010, 1009, 1008, 1007, 1006, 1005, 1004, 1003, 1002, 1001] = [] := by
  refine ⟨by decide, by norm_num, ?_⟩
  norm_num [checkpoint_writes, ckpt_writes_from]

theorem checkpoint_best_policy (losses : List ℚ) (e : ℕ) (he : e < losses.length) :
    best_before losses 0 = 1000
    ∧ (∀ i, i ≤ 5 → best_before losses i = 1000)
    ∧ (e ∈ checkpoint_writes losses ↔
        5 ≤ e ∧ losses.getD e 0 < best_before losses e)
    ∧ best_before losses (e + 1)
        = (if losses.getD e 0 < best_before losses e ∧ 5 ≤ e
           then losses.getD e 0 else best_before losses e) := by
  refine ⟨rfl, ?_, ?_, ?_⟩
  · intro i hi
    unfold best_before
    apply best_aux_low
    have : (losses.take i).length ≤ i := by
      rw [List.length_take]; omega
    omega
  · unfold checkpoint_writes
    rw [mem_ckpt_writes_iff]
    constructor
    · rintro ⟨k, hk, hxk, h5, hlt⟩
      have hke : k = e := by omega
      subst hke
      exact ⟨h5, hlt⟩
    · rintro ⟨h5, hlt⟩
      exact ⟨e, he, by omega, h5, hlt⟩
  · exact best_before_succ losses e he

theorem checkpoint_best_policy_witness :
    best_before [9, 8, 7, 6, 5, 4, 3, 2, 1, 0] 0 = 1000
    ∧ (∀ i, i ≤ 5 → best_before [9, 8, 7, 6, 5, 4, 3, 2, 1, 0] i = 1000)
    ∧ (6 ∈ checkpoint_writes [9, 8, 7, 6, 5, 4, 3, 2, 1, 0] ↔
        5 ≤ 6 ∧ List.getD [9, 8, 7, 6, 5, 4, 3, 2, 1, 0] 6 0
                  < best_before [9, 8, 7, 6, 5, 4, 3, 2, 1, 0] 6)
    ∧ best_before [9, 8, 7, 6, 5, 4, 3, 2, 1, 0] (6 + 1)
        = (if List.getD [9, 8, 7, 6, 5, 4, 3, 2, 1, 0] 6 0
              < best_before [9, 8, 7, 6, 5, 4, 3, 2, 1, 0] 6 ∧ 5 ≤ 6
           then List.getD [9, 8, 7, 6, 5, 4, 3, 2, 1, 0] 6 0
           else best_before [9, 8, 7, 6, 5, 4, 3, 2, 1, 0] 6) :=
  checkpoint_best_policy [9, 8, 7, 6, 5, 4, 3, 2, 1, 0] 6 (by decide)

theorem checkpoint_sentinel_counterexample :
    checkpoint_writes (List.replicate 10 1500) = [] := by
  norm_num [checkpoint_writes, ckpt_writes_from, List.replicate]

/-- C9 evaluation at the failing input: with epochs = 7 (and the sgd
optimizer) the step is round(7 / 5) = 1, so at epoch 5 the computed index
min(floor(5 / 1), len(lr_values)) equals 5, which is not a valid index
into the 5-element lr_values table: line 108 evaluates lr_values[5] and
raises IndexError. -/
theorem lr_index_out_of_range :
    lr_step 7 = 1
    ∧ lr_index 5 7 = 5
    ∧ lr_values.length = 5
    ∧ ¬ (lr_index 5 7 < lr_values.length)
    ∧ 5 < 7 := by
  refine ⟨rfl, rfl, rfl, by decide, by decide⟩

/-- C10 evaluation at the failing input: on a batch of two samples whose
predictions all agree with the labels, the epoch accuracy figures of the
entire-leaf train and validation accumulation and of the lesion-spot
train accumulation are 100 when an accelerator is available but 0 when
it is not, because the accuracy running sums sit under the
torch.cuda.is_available() guard and are left at their zero start. -/
theorem accuracy_gated_by_accelerator :
    (epoch_metrics "multitask" true [perfect_batch] 2).dis_acc = 100
    ∧ (epoch_metrics "multitask" true [perfect_batch] 2).sev_acc = 100
    ∧ (epoch_metrics "multitask" false [perfect_batch] 2).dis_acc = 0
    ∧ (epoch_metrics "multitask" false [perfect_batch] 2).sev_acc = 0
    ∧ lesion_train_acc true [perfect_ls_batch] = 100
    ∧ lesion_train_acc false [perfect_ls_batch] = 0 := by
  have hacc : batch_acc [0, 1] [0, 1] = 1 := by
    norm_num [batch_acc, eval_metrics, accuracy_score]
  refine ⟨?_, ?_, ?_, ?_, ?_, ?_⟩ <;>
    norm_num [epoch_metrics, lesion_train_acc, perfect_batch, perfect_ls_batch, hacc]

end Classifiers
